import Mathlib

/-!
Verification of the lazy combinator-language evaluator (galaxy evaluator).

The source is TypeScript.  Its data model (`data.ts`, both the functional and
the class-based OO variant, which are line-for-line the same algorithms) is
embedded deeply:

* host closures (`FuncValue.func : (a: Expr) => Expr`) are defunctionalized
  into the inductive `Closure`: one constructor per closure literal appearing
  in the source, one per partial-application stage
  (`makeFunc2(f) = makeFunc(a => makeFunc(b => f(a,b)))`);
* thunk recipes (`() => Value`) are defunctionalized into `Recipe`;
* the mutable `Thunk {func?, cache?}` objects live in an explicit heap
  `cells : Nat → Option Cell`; `Expr.thunk id` points into it;
* JavaScript `bigint` is `Int`; `bigint` division truncates toward zero,
  which is `Int.tdiv`;
* thrown `Error`s are `Except Err`; general recursion is bounded by an
  explicit fuel argument, `none` meaning "fuel exhausted".

`evaluate` embeds both `evaluate` (functional variant) and
`Evaluator.forceValue` (OO variant); the two source functions are textually
identical up to the receiver object holding the counter.
-/

namespace Galaxy

/-- Errors thrown by the evaluator (section 7 of the design):
`notApplicable` = "Invalid function call" (applying to a Number),
`brokenThunk` = "Broken thunk", `undefinedReference` = "Undefined reference",
`ambiguousValue` = "Not nil/cons" from the behavioral probe,
`typeMismatch` = "wrong types" from arithmetic builtins,
`notModulatable` = "Not modulatable" (OO canonicalization on a func),
`divisionByZero` = the JS RangeError raised by `bigint` division by zero. -/
inductive Err where
  | notApplicable
  | brokenThunk
  | undefinedReference (name : String)
  | ambiguousValue
  | typeMismatch (op : String)
  | notModulatable
  | divisionByZero
deriving DecidableEq

mutual

/-- Type `Expr` from data.ts: a value or a thunk; `thunk id` points into the heap. -/
inductive Expr where
  | num (n : Int)
  | func (f : Closure)
  | nil
  | cons (car cdr : Expr)
  | thunk (id : Nat)

/-- Defunctionalized host closures (the `FuncValue.func` fields occurring in
the source).  `true0`/`true1 a` are the two stages of
`theTrue = makeFunc2((a, b) => a)`; `false0`/`false1 a` of
`theFalse = makeFunc2((a, b) => b)`; `kfalse0`/`kfalse1 a` of the probe
function `makeFunc2((a, b) => makeBoolean(false))` built in `isNilSlow`.
The rest is the whole builtins catalog of `newStandardEnvironment`: the
numbered constructors (`add0`/`add1 a`, …) are the curried stages the
`makeFunc2`/`makeFunc3` wrappers create, one per argument received so far;
`incB`/`decB`/`negB` are the one-argument arithmetic builtins, `iB` is the
identity combinator, `consB0`/`consB1 a` the stages of
`makeFunc2(makeCons)`, `carB`/`cdrB` the `makeFunc(makeCar)` /
`makeFunc(makeCdr)` closures, `isnilB` the `makeFunc(builtinIsNil)`
closure, and `s0`…`s2`, `c0`…`c2`, `b0`…`b2` the stages of the S, C and B
combinators. -/
inductive Closure where
  | true0
  | true1 (a : Expr)
  | false0
  | false1 (a : Expr)
  | kfalse0
  | kfalse1 (a : Expr)
  | incB
  | decB
  | add0
  | add1 (a : Expr)
  | mul0
  | mul1 (a : Expr)
  | div0
  | div1 (a : Expr)
  | eq0
  | eq1 (a : Expr)
  | lt0
  | lt1 (a : Expr)
  | negB
  | s0
  | s1 (a : Expr)
  | s2 (a b : Expr)
  | c0
  | c1 (a : Expr)
  | c2 (a b : Expr)
  | b0
  | b1 (a : Expr)
  | b2 (a b : Expr)
  | iB
  | consB0
  | consB1 (a : Expr)
  | carB
  | cdrB
  | isnilB

end

/-- Type `Value` from data.ts: the four concrete shapes (no thunk). -/
inductive Value where
  | num (n : Int)
  | func (f : Closure)
  | nil
  | cons (car cdr : Expr)

/-- Re-inject a `Value` into `Expr` (in TS, `Value` is a subtype of `Expr`). -/
def Value.toExpr : Value → Expr
  | .num i => .num i
  | .func c => .func c
  | .nil => .nil
  | .cons a b => .cons a b

/-- Defunctionalized thunk recipes (the `() => Value` thunk bodies in the
source): `appR lhs rhs` is `makeThunk(() => apply(lhs, rhs))` created by
`makeApply` on an unforced lhs; `refR name` is the deferred re-resolution
built by `makeReference`; the remaining constructors are the deferred
bodies of the builtins that wrap their result in `makeThunk`
(`builtinInc`/`builtinDec`/`builtinAdd`/`builtinMul`/`builtinDiv`/
`builtinEq`/`builtinLt`/`builtinNeg`/`builtinS`/`builtinIsNil`). -/
inductive Recipe where
  | appR (lhs rhs : Expr)
  | refR (name : String)
  | incR (a : Expr)
  | decR (a : Expr)
  | addR (a b : Expr)
  | mulR (a b : Expr)
  | divR (a b : Expr)
  | eqR (a b : Expr)
  | ltR (a b : Expr)
  | negR (a : Expr)
  | sR (a b c : Expr)
  | isnilR (a : Expr)

/-- A heap cell mirrors the mutable `Thunk` object: `{func?: () => Value,
cache?: Value}`. -/
structure Cell where
  func : Option Recipe
  cache : Option Value

/-- Class `Environment`: insertion-ordered name→expression map plus optional
parent.  The TS optional `parent_?` is the two constructors. -/
inductive Env where
  | root (defs : List (String × Expr))
  | child (defs : List (String × Expr)) (parent : Env)

/-- Lookup `defs_.get(name)` on an association list (first match). -/
def lookupDefs : List (String × Expr) → String → Option Expr
  | [], _ => none
  | (k, e) :: rest, name => if k = name then some e else lookupDefs rest name

/-- Method `Environment.lookup`: this environment's map, then the parent chain. -/
def lookupEnv : Env → String → Option Expr
  | .root defs, name => lookupDefs defs name
  | .child defs parent, name =>
    match lookupDefs defs name with
    | some e => some e
    | none => lookupEnv parent name

/-- Mutable evaluation state: the heap of thunk cells, the allocation
cursor, the evaluation counter (`evalCounter` / `Evaluator.counter`), and
the environment contents as of force time (the TS recipes close over the
`Environment` object by reference, so they see its force-time contents). -/
structure EvalState where
  cells : Nat → Option Cell
  next : Nat
  counter : Nat
  env : Env

/-- Evaluation monad: state, thrown errors, and `none` for fuel
exhaustion. -/
def EvalM (α : Type) : Type := EvalState → Option (Except Err α × EvalState)

def retE {α : Type} (a : α) : EvalM α := fun σ => some (.ok a, σ)

def throwE {α : Type} (e : Err) : EvalM α := fun σ => some (.error e, σ)

def bindE {α β : Type} (x : EvalM α) (f : α → EvalM β) : EvalM β := fun σ =>
  match x σ with
  | none => none
  | some (.error e, σ') => some (.error e, σ')
  | some (.ok a, σ') => f a σ'

/-- Allocate a fresh thunk cell holding a recipe (`makeThunk`). -/
def allocState (r : Recipe) (σ : EvalState) : EvalState :=
  { σ with
    cells := fun j => if j = σ.next then some ⟨some r, none⟩ else σ.cells j,
    next := σ.next + 1 }

/-- Constructor `makeThunk(func)`: allocate and return the new thunk node. -/
def allocThunk (r : Recipe) : EvalM Expr := fun σ =>
  some (.ok (.thunk σ.next), allocState r σ)

/-- Overwrite one heap cell (the `expr.cache = value; expr.func = undefined`
mutation). -/
def writeCell (id : Nat) (c : Cell) (σ : EvalState) : EvalState :=
  { σ with cells := fun j => if j = id then some c else σ.cells j }

/-- Increment `evalCounter++` / `this.counter++`. -/
def bumpCounter (σ : EvalState) : EvalState := { σ with counter := σ.counter + 1 }

/-- The probe of `isNilSlow`: `makeApply(value, bool, 123n, 456n)` forced,
where `bool = makeFunc2((a, b) => makeBoolean(false))` (`kfalse0`) and the
variadic `makeApply` is the left fold of the binary step `st`. -/
def probeN (ev : Expr → EvalM Value) (st : Expr → Expr → EvalM Expr)
    (c : Closure) : EvalM Value :=
  bindE (st (Expr.func c) (Expr.func .kfalse0)) fun e1 =>
  bindE (st e1 (Expr.num 123)) fun e2 =>
  bindE (st e2 (Expr.num 456)) fun e3 => ev e3

/-- Function `isNilSlow(value)`: run the behavioral probe, then decode the reserved
sentinels 123 ("behaves as nil") and 456 ("behaves as pair"); anything else
is the "Not nil/cons" error. -/
def isNilSlowB (ev : Expr → EvalM Value) (st : Expr → Expr → EvalM Expr)
    (c : Closure) : EvalM Bool :=
  bindE (probeN ev st c) fun v =>
    match v with
    | .num k =>
      if k = 123 then retE true
      else if k = 456 then retE false
      else throwE .ambiguousValue
    | _ => throwE .ambiguousValue

/-- Function `isNil(expr)`: force, then the tag fast path (`nil` → true, `cons` and
`number` → false), falling back to the behavioral probe on an opaque
function. -/
def isNilB (ev : Expr → EvalM Value) (st : Expr → Expr → EvalM Expr)
    (e : Expr) : EvalM Bool :=
  bindE (ev e) fun v =>
    match v with
    | .nil => retE true
    | .cons _ _ => retE false
    | .num _ => retE false
    | .func c => isNilSlowB ev st c

/-- Run one defunctionalized host closure on an argument: the bodies of the
closures listed in `Closure`.  Partial-application stages and the selector
bodies are pure; the saturated stages of the thunk-wrapping builtins
allocate the recipe thunk their TS bodies return; `carB`, `cdrB`, the C and
B combinators build applications through the `makeApply` step `st` (and so
can fail synchronously, exactly as the TS closure bodies can throw). -/
def callFunc (st : Expr → Expr → EvalM Expr) : Closure → Expr → EvalM Expr
  | .true0, a => retE (.func (.true1 a))
  | .true1 a, _ => retE a
  | .false0, a => retE (.func (.false1 a))
  | .false1 _, b => retE b
  | .kfalse0, a => retE (.func (.kfalse1 a))
  | .kfalse1 _, _ => retE (.func .false0)
  | .incB, a => allocThunk (.incR a)
  | .decB, a => allocThunk (.decR a)
  | .add0, a => retE (.func (.add1 a))
  | .add1 a, b => allocThunk (.addR a b)
  | .mul0, a => retE (.func (.mul1 a))
  | .mul1 a, b => allocThunk (.mulR a b)
  | .div0, a => retE (.func (.div1 a))
  | .div1 a, b => allocThunk (.divR a b)
  | .eq0, a => retE (.func (.eq1 a))
  | .eq1 a, b => allocThunk (.eqR a b)
  | .lt0, a => retE (.func (.lt1 a))
  | .lt1 a, b => allocThunk (.ltR a b)
  | .negB, a => allocThunk (.negR a)
  | .s0, a => retE (.func (.s1 a))
  | .s1 a, b => retE (.func (.s2 a b))
  | .s2 a b, c => allocThunk (.sR a b c)
  | .c0, a => retE (.func (.c1 a))
  | .c1 a, b => retE (.func (.c2 a b))
  | .c2 a b, c => bindE (st a c) fun e => st e b
  | .b0, a => retE (.func (.b1 a))
  | .b1 a, b => retE (.func (.b2 a b))
  | .b2 a b, c => bindE (st b c) fun e => st a e
  | .iB, a => retE a
  | .consB0, a => retE (.func (.consB1 a))
  | .consB1 a, b => retE (.cons a b)
  | .carB, a => st a (Expr.func .true0)
  | .cdrB, a => st a (Expr.func .false0)
  | .isnilB, a => allocThunk (.isnilR a)

/-- The binary reduction step of `makeApply` (the body of its `reduce`
callback): dispatch on the unforced lhs.  `makeApply(e1, ..., ek)` is the
left fold of this step.  Fuel bounds the `cons` case, which recurses into
two further applications; a closure body receives the step at the smaller
fuel. -/
def applyStepN : Nat → Expr → Expr → EvalM Expr
  | 0 => fun _ _ _ => none
  | n + 1 => fun lhs rhs =>
    match lhs with
    | .num _ => throwE .notApplicable
    | .nil => retE (.func .true0)
    | .cons a b => bindE (applyStepN n rhs a) fun e => applyStepN n e b
    | .func c => callFunc (applyStepN n) c rhs
    | .thunk _ => allocThunk (.appR lhs rhs)

/-- The private `apply(lhs, rhs)` of data.ts, parameterized by the evaluator
`ev` (`evaluate` at the enclosing fuel) and the `makeApply` step `st`:
force the lhs and dispatch on its shape. -/
def applyB (ev : Expr → EvalM Value) (st : Expr → Expr → EvalM Expr)
    (lhs rhs : Expr) : EvalM Value :=
  bindE (ev lhs) fun v =>
    match v with
    | .num _ => throwE .notApplicable
    | .nil => retE (.func .true0)
    | .cons a b => bindE (st rhs a) fun e1 => bindE (st e1 b) fun e2 => ev e2
    | .func c => bindE (callFunc st c rhs) fun e => ev e

/-- Run one thunk recipe: the deferred bodies listed in `Recipe`.
`refR` re-resolves its name against the force-time environment and fails
with `UndefinedReference` only then.  `divR` raises the JS division-by-zero
error before computing the truncated quotient.  `sR` is
`evaluate(makeApply(makeApply(a, c), makeApply(b, c)))` with JS
left-to-right argument evaluation; `isnilR` is
`makeBoolean(isNil(a))`. -/
def runRecipeB (ev : Expr → EvalM Value) (st : Expr → Expr → EvalM Expr) :
    Recipe → EvalM Value
  | .appR l r => applyB ev st l r
  | .refR name => fun σ =>
    match lookupEnv σ.env name with
    | none => throwE (.undefinedReference name) σ
    | some e => ev e σ
  | .incR a =>
    bindE (ev a) fun x =>
      match x with
      | .num i => retE (.num (i + 1))
      | _ => throwE (.typeMismatch ("inc"))
  | .decR a =>
    bindE (ev a) fun x =>
      match x with
      | .num i => retE (.num (i - 1))
      | _ => throwE (.typeMismatch ("dec"))
  | .addR a b =>
    bindE (ev a) fun x => bindE (ev b) fun y =>
      match x, y with
      | .num i, .num j => retE (.num (i + j))
      | _, _ => throwE (.typeMismatch ("add"))
  | .mulR a b =>
    bindE (ev a) fun x => bindE (ev b) fun y =>
      match x, y with
      | .num i, .num j => retE (.num (i * j))
      | _, _ => throwE (.typeMismatch ("mul"))
  | .divR a b =>
    bindE (ev a) fun x => bindE (ev b) fun y =>
      match x, y with
      | .num i, .num j =>
        if j = 0 then throwE .divisionByZero else retE (.num (Int.tdiv i j))
      | _, _ => throwE (.typeMismatch ("div"))
  | .eqR a b =>
    bindE (ev a) fun x => bindE (ev b) fun y =>
      match x, y with
      | .num i, .num j => retE (.func (if i = j then .true0 else .false0))
      | _, _ => throwE (.typeMismatch ("eq"))
  | .ltR a b =>
    bindE (ev a) fun x => bindE (ev b) fun y =>
      match x, y with
      | .num i, .num j => retE (.func (if i < j then .true0 else .false0))
      | _, _ => throwE (.typeMismatch ("lt"))
  | .negR a =>
    bindE (ev a) fun x =>
      match x with
      | .num i => retE (.num (-i))
      | _ => throwE (.typeMismatch ("neg"))
  | .sR a b c =>
    bindE (st a c) fun e1 => bindE (st b c) fun e2 =>
    bindE (st e1 e2) fun e3 => ev e3
  | .isnilR a =>
    bindE (isNilB ev st a) fun bl =>
      retE (.func (if bl then .true0 else .false0))

/-- Function `evaluate(expr)` (functional variant) and `Evaluator.forceValue(expr)`
(OO variant; the two bodies are identical): a value is returned unchanged,
a cached thunk is a pure lookup, otherwise bump the counter, run the recipe,
store the cache and discard the recipe.  Fuel is consumed once per recipe
run. -/
def evaluate : Nat → Expr → EvalM Value
  | 0 => fun _ _ => none
  | n + 1 => fun e σ =>
    match e with
    | .num i => retE (Value.num i) σ
    | .func c => retE (Value.func c) σ
    | .nil => retE Value.nil σ
    | .cons a b => retE (Value.cons a b) σ
    | .thunk id =>
      match σ.cells id with
      | none => throwE .brokenThunk σ
      | some cell =>
        match cell.cache with
        | some v => retE v σ
        | none =>
          match cell.func with
          | none => throwE .brokenThunk σ
          | some r =>
            match runRecipeB (evaluate n) (applyStepN n) r (bumpCounter σ) with
            | none => none
            | some (.error err, σ₂) => some (.error err, σ₂)
            | some (.ok v, σ₂) => some (.ok v, writeCell id ⟨none, some v⟩ σ₂)

/-- Function `makeReference(env, name)`: if the name resolves now, return the bound
expression itself; otherwise allocate a thunk whose recipe re-resolves the
name at force time. -/
def makeReferenceN (env : Env) (name : String) : EvalM Expr :=
  match lookupEnv env name with
  | some e => retE e
  | none => allocThunk (.refR name)

/-- Entry point for `isNil` at a fuel level: the evaluator and application step it closes
over are `evaluate n` and `applyStepN n`. -/
def isNilN : Nat → Expr → EvalM Bool
  | 0 => fun _ _ => none
  | n + 1 => fun e => isNilB (evaluate n) (applyStepN n) e

/-- Types `StaticData` (functional variant) and `Modulatable` (OO variant): the
two class families have the same three shapes, so one inductive embeds
both. -/
inductive StaticData where
  | number (n : Int)
  | list (elems : List StaticData)
  | cons (car cdr : StaticData)

/-- Reduction `elems.reduceRight((cdr, car) => cons(car, cdr))`: right-nest a nonempty
list into a cons chain whose rightmost element is the seed.  JS
`reduceRight` throws on an empty array; the sources only call it on a list
they just pushed to, so the `[]` case is unreachable (any value works). -/
def consChainR : List StaticData → StaticData
  | [] => .number 0
  | [d] => d
  | d :: e :: rest => .cons d (consChainR (e :: rest))

/-- The `while (true)` loop of `exprToStaticData`, parameterized by the
recursive canonicalizer `sd`, the evaluator `ev`, and the `makeApply` step
`st` (used by `makeCar`/`makeCdr`, which apply the boolean selectors).
A `number` spine terminator is itself canonicalized (`exprToStaticData(cur)`
on a number value is its leaf) and the accumulated elements are re-nested
with `reduceRight`; a nil-like spine end yields a `list` node. -/
def staticLoopB (sd : Expr → EvalM StaticData) (ev : Expr → EvalM Value)
    (st : Expr → Expr → EvalM Expr) :
    Nat → List StaticData → Value → EvalM StaticData
  | 0 => fun _ _ _ => none
  | k + 1 => fun elems cur =>
    match cur with
    | .num i =>
      bindE (sd (Expr.num i)) fun d => retE (consChainR (elems ++ [d]))
    | _ =>
      bindE (isNilB ev st (Value.toExpr cur)) fun b =>
        if b then retE (.list elems)
        else
          bindE (st (Value.toExpr cur) (Expr.func .true0)) fun carE =>
          bindE (sd carE) fun d =>
          bindE (st (Value.toExpr cur) (Expr.func .false0)) fun cdrE =>
          bindE (ev cdrE) fun cur2 =>
          staticLoopB sd ev st k (elems ++ [d]) cur2

/-- Function `exprToStaticData(expr)` (functional variant): force; a number is a
leaf; otherwise walk the spine with the loop above. -/
def staticDataN : Nat → Expr → EvalM StaticData
  | 0 => fun _ _ => none
  | n + 1 => fun e =>
    bindE (evaluate n e) fun v =>
      match v with
      | .num i => retE (.number i)
      | _ => staticLoopB (staticDataN n) (evaluate n) (applyStepN n) n [] v

/-- The `while (true)` loop of `Evaluator.forceModulatable` (OO variant):
tag dispatch only — `number` terminates the spine (push the leaf, re-nest
with `reduceRight`), `nil` yields a `list`, `cons` destructures by
`uncons()` (direct field access) and recurses into the car via `fm`, and an
opaque `func` is "Not modulatable". -/
def forceModLoopB (fm : Expr → EvalM StaticData) (ev : Expr → EvalM Value) :
    Nat → List StaticData → Value → EvalM StaticData
  | 0 => fun _ _ _ => none
  | k + 1 => fun elems cur =>
    match cur with
    | .num i => retE (consChainR (elems ++ [.number i]))
    | .nil => retE (.list elems)
    | .cons car cdr =>
      bindE (fm car) fun d =>
      bindE (ev cdr) fun v =>
      forceModLoopB fm ev k (elems ++ [d]) v
    | .func _ => throwE .notModulatable

/-- Method `Evaluator.forceModulatable(expr)` (OO variant): force, then loop. -/
def forceModN : Nat → Expr → EvalM StaticData
  | 0 => fun _ _ => none
  | n + 1 => fun e =>
    bindE (evaluate n e) fun v =>
      forceModLoopB (forceModN n) (evaluate n) n [] v

mutual

/-- Function `staticDataEqual(a, b)`: structural comparison from the source. -/
def staticDataEqual : StaticData → StaticData → Bool
  | .number a, .number b => a == b
  | .list as, .list bs => staticListEqual as bs
  | .cons a c, .cons b d => staticDataEqual a b && staticDataEqual c d
  | _, _ => false

/-- The `list` case of `staticDataEqual`: the source's length check plus
element-wise loop, fused into one recursion. -/
def staticListEqual : List StaticData → List StaticData → Bool
  | [], [] => true
  | a :: as, b :: bs => staticDataEqual a b && staticListEqual as bs
  | _, _ => false

end

/-- A fresh evaluation state: empty heap, zero counter, empty root
environment. -/
def initState : EvalState := ⟨fun _ => none, 0, 0, .root []⟩

/-- Nil-terminated (`none`) or number-terminated (`some t`) spine ends. -/
def tailValue : Option Int → Value
  | none => .nil
  | some t => .num t

/-- Build the right-nested `Pair` chain of a sequence of integers over a
given spine terminator, as the parser would
(`ap ap cons i1 ... tail`). -/
def fromChain : List Int → Expr → Expr
  | [], tail => tail
  | i :: l, tail => .cons (.num i) (fromChain l tail)

/-- The forced value of `fromChain l (Value.toExpr (tailValue o))`. -/
def chainValue (l : List Int) (o : Option Int) : Value :=
  match l with
  | [] => tailValue o
  | i :: l' => .cons (.num i) (fromChain l' (Value.toExpr (tailValue o)))

/-- What the canonicalization loop produces from accumulated `elems` and the
remaining chain: a `list` node for a nil-terminated spine, a re-nested cons
chain for a number-terminated one. -/
def chainResult (o : Option Int) (elems : List StaticData) (l : List Int) :
    StaticData :=
  match o with
  | none => .list (elems ++ l.map .number)
  | some t => consChainR (elems ++ l.map .number ++ [.number t])

/-- Finite tagged data trees: expressions built only of `num`, `nil` and
`cons` (no opaque functions, no thunks anywhere), the domain on which both
canonicalization passes are compared. -/
inductive DataT where
  | num (i : Int)
  | nil
  | cons (a b : DataT)

def DataT.toExpr : DataT → Expr
  | .num i => .num i
  | .nil => .nil
  | .cons a b => .cons a.toExpr b.toExpr

/-- The forced value of `DataT.toExpr`. -/
def DataT.valueOf : DataT → Value
  | .num i => .num i
  | .nil => .nil
  | .cons a b => .cons a.toExpr b.toExpr

/-- Fuel measure for canonicalizing a tagged data tree. -/
def DataT.msize : DataT → Nat
  | .num _ => 1
  | .nil => 1
  | .cons a b => a.msize + b.msize + 1

mutual

/-- Reference canonical tree of a tagged data tree (the expected common
output of both canonicalization passes). -/
def canon : DataT → StaticData
  | .num i => .number i
  | .nil => .list []
  | .cons a b => canonSpine b [canon a]

/-- Reference spine walk with accumulated elements. -/
def canonSpine : DataT → List StaticData → StaticData
  | .num t, elems => consChainR (elems ++ [.number t])
  | .nil, elems => .list elems
  | .cons a b, elems => canonSpine b (elems ++ [canon a])

end

lemma bindE_ok {α β : Type} {x : EvalM α} {σ σ' : EvalState} {a : α}
    (f : α → EvalM β) (h : x σ = some (.ok a, σ')) :
    bindE x f σ = f a σ' := by
  unfold bindE; rw [h]

lemma bindE_err {α β : Type} {x : EvalM α} {σ σ' : EvalState} {e : Err}
    (f : α → EvalM β) (h : x σ = some (.error e, σ')) :
    bindE x f σ = some (.error e, σ') := by
  unfold bindE; rw [h]

lemma allocState_cells_self (r : Recipe) (σ : EvalState) :
    (allocState r σ).cells σ.next = some ⟨some r, none⟩ := by
  simp [allocState]

lemma evaluate_fresh {n : Nat} (id : Nat) (r : Recipe) (σ : EvalState)
    (hcell : σ.cells id = some ⟨some r, none⟩) {v : Value} {σ₂ : EvalState}
    (hrun : runRecipeB (evaluate n) (applyStepN n) r (bumpCounter σ)
      = some (.ok v, σ₂)) :
    evaluate (n + 1) (.thunk id) σ
      = some (.ok v, writeCell id ⟨none, some v⟩ σ₂) := by
  simp only [evaluate, hcell]
  rw [hrun]

lemma evaluate_toExpr {m : Nat} (hm : 1 ≤ m) (v : Value) (σ : EvalState) :
    evaluate m (Value.toExpr v) σ = some (.ok v, σ) := by
  obtain ⟨j, rfl⟩ : ∃ j, m = j + 1 := ⟨m - 1, by omega⟩
  cases v <;> rfl

lemma evaluate_dataToExpr {m : Nat} (hm : 1 ≤ m) (d : DataT) (σ : EvalState) :
    evaluate m d.toExpr σ = some (.ok d.valueOf, σ) := by
  obtain ⟨j, rfl⟩ : ∃ j, m = j + 1 := ⟨m - 1, by omega⟩
  cases d <;> rfl

lemma evaluate_fromChain {m : Nat} (hm : 1 ≤ m) (l : List Int)
    (o : Option Int) (σ : EvalState) :
    evaluate m (fromChain l (Value.toExpr (tailValue o))) σ
      = some (.ok (chainValue l o), σ) := by
  obtain ⟨j, rfl⟩ : ∃ j, m = j + 1 := ⟨m - 1, by omega⟩
  cases l with
  | nil => cases o <;> rfl
  | cons i l' => rfl

lemma evaluate_nil {m : Nat} (hm : 1 ≤ m) (σ : EvalState) :
    evaluate m Expr.nil σ = some (.ok Value.nil, σ) := by
  obtain ⟨j, rfl⟩ : ∃ j, m = j + 1 := ⟨m - 1, by omega⟩
  rfl

lemma evaluate_num {m : Nat} (hm : 1 ≤ m) (i : Int) (σ : EvalState) :
    evaluate m (Expr.num i) σ = some (.ok (.num i), σ) := by
  obtain ⟨j, rfl⟩ : ∃ j, m = j + 1 := ⟨m - 1, by omega⟩
  rfl

lemma evaluate_cons {m : Nat} (hm : 1 ≤ m) (a b : Expr) (σ : EvalState) :
    evaluate m (Expr.cons a b) σ = some (.ok (.cons a b), σ) := by
  obtain ⟨j, rfl⟩ : ∃ j, m = j + 1 := ⟨m - 1, by omega⟩
  rfl

lemma applyStep_car {m : Nat} (hm : 2 ≤ m) (a b : Expr) (σ : EvalState) :
    applyStepN m (Expr.cons a b) (Expr.func .true0) σ = some (.ok a, σ) := by
  obtain ⟨j, rfl⟩ : ∃ j, m = j + 2 := ⟨m - 2, by omega⟩
  rfl

lemma applyStep_cdr {m : Nat} (hm : 2 ≤ m) (a b : Expr) (σ : EvalState) :
    applyStepN m (Expr.cons a b) (Expr.func .false0) σ = some (.ok b, σ) := by
  obtain ⟨j, rfl⟩ : ∃ j, m = j + 2 := ⟨m - 2, by omega⟩
  rfl

lemma isNilB_nil {m : Nat} (hm : 1 ≤ m) (st : Expr → Expr → EvalM Expr)
    (σ : EvalState) :
    isNilB (evaluate m) st Expr.nil σ = some (.ok true, σ) := by
  obtain ⟨j, rfl⟩ : ∃ j, m = j + 1 := ⟨m - 1, by omega⟩
  rfl

lemma isNilB_cons {m : Nat} (hm : 1 ≤ m) (st : Expr → Expr → EvalM Expr)
    (a b : Expr) (σ : EvalState) :
    isNilB (evaluate m) st (Expr.cons a b) σ = some (.ok false, σ) := by
  obtain ⟨j, rfl⟩ : ∃ j, m = j + 1 := ⟨m - 1, by omega⟩
  rfl

lemma staticDataN_num {m : Nat} (hm : 2 ≤ m) (i : Int) (σ : EvalState) :
    staticDataN m (Expr.num i) σ = some (.ok (.number i), σ) := by
  obtain ⟨j, rfl⟩ : ∃ j, m = j + 2 := ⟨m - 2, by omega⟩
  rfl

lemma staticLoop_chain (l : List Int) (o : Option Int) :
    ∀ (k m : Nat) (elems : List StaticData) (σ : EvalState),
    l.length + 1 ≤ k → 2 ≤ m →
    staticLoopB (staticDataN m) (evaluate m) (applyStepN m) k elems
        (chainValue l o) σ
      = some (.ok (chainResult o elems l), σ) := by
  induction l with
  | nil =>
    intro k m elems σ hk hm
    obtain ⟨k', rfl⟩ : ∃ k', k = k' + 1 := ⟨k - 1, by omega⟩
    cases o with
    | none =>
      simp only [chainValue, tailValue, staticLoopB]
      rw [show Value.toExpr Value.nil = Expr.nil from rfl,
        bindE_ok _ (isNilB_nil (by omega) _ σ)]
      simp [retE, chainResult]
    | some t =>
      simp only [chainValue, tailValue, staticLoopB]
      rw [bindE_ok _ (staticDataN_num hm t σ)]
      simp [retE, chainResult]
  | cons i l' ih =>
    intro k m elems σ hk hm
    obtain ⟨k', rfl⟩ : ∃ k', k = k' + 1 := ⟨k - 1, by omega⟩
    have hce : ∀ a b, Value.toExpr (Value.cons a b) = Expr.cons a b :=
      fun _ _ => rfl
    simp only [chainValue, staticLoopB, hce]
    rw [bindE_ok _ (isNilB_cons (by omega) _ _ _ σ)]
    simp only [Bool.false_eq_true, if_false]
    rw [bindE_ok _ (applyStep_car hm _ _ σ),
      bindE_ok _ (staticDataN_num hm i σ),
      bindE_ok _ (applyStep_cdr hm _ _ σ),
      bindE_ok _ (evaluate_fromChain (by omega) l' o σ)]
    refine (ih k' m (elems ++ [.number i]) σ ?_ hm).trans ?_
    · simp only [List.length_cons] at hk; omega
    · cases o <;> simp [chainResult, List.append_assoc]

lemma consChainR_map (l : List Int) (x : StaticData) :
    consChainR (l.map .number ++ [x])
      = l.foldr (fun i acc => .cons (.number i) acc) x := by
  induction l with
  | nil => rfl
  | cons i l' ih =>
    cases l' with
    | nil => rfl
    | cons i' l'' =>
      simp only [List.map_cons, List.cons_append, consChainR, List.foldr_cons,
        List.append_eq]
      simp only [List.map_cons, List.cons_append] at ih
      rw [ih]
      rfl

/-- C4.  Canonicalization round-trip: the nil-terminated `Pair` chain of any
finite sequence of integers canonicalizes to the `List` of the corresponding
`Number` leaves in order, and the same chain with a `Number` spine
terminator instead of nil canonicalizes to the right-nested `Pair` chain
rebuilt from the tail. -/
theorem canonicalization_roundTrip (l : List Int) (t : Int) (n : Nat)
    (σ : EvalState) (h : l.length + 3 ≤ n) :
    staticDataN n (fromChain l Expr.nil) σ
      = some (.ok (.list (l.map StaticData.number)), σ) ∧
    staticDataN n (fromChain l (Expr.num t)) σ
      = some (.ok (l.foldr (fun i acc => StaticData.cons (.number i) acc)
          (.number t)), σ) := by
  obtain ⟨n₁, rfl⟩ : ∃ n₁, n = n₁ + 1 := ⟨n - 1, by omega⟩
  constructor
  · show staticDataN (n₁ + 1)
      (fromChain l (Value.toExpr (tailValue none))) σ = _
    simp only [staticDataN]
    rw [bindE_ok _ (evaluate_fromChain (by omega) l none σ)]
    cases l with
    | nil =>
      simp only [chainValue, tailValue]
      exact (staticLoop_chain [] none n₁ n₁ [] σ (by omega) (by omega)).trans
        (by simp [chainResult])
    | cons i l' =>
      simp only [chainValue]
      exact (staticLoop_chain (i :: l') none n₁ n₁ [] σ
          (by simp only [List.length_cons] at h ⊢; omega) (by omega)).trans
        (by simp [chainResult])
  · cases l with
    | nil => exact staticDataN_num (by omega) t σ
    | cons i l' =>
      show staticDataN (n₁ + 1)
        (fromChain (i :: l') (Value.toExpr (tailValue (some t)))) σ = _
      simp only [staticDataN]
      rw [bindE_ok _ (evaluate_fromChain (by omega) (i :: l') (some t) σ)]
      simp only [chainValue]
      refine (staticLoop_chain (i :: l') (some t) n₁ n₁ [] σ
          (by simp only [List.length_cons] at h ⊢; omega) (by omega)).trans ?_
      simp only [chainResult, List.nil_append]
      rw [consChainR_map]

/-- A pristine thunk cell holding the `builtinAdd` body for `3 + 4`, used to
exercise the forcing engine on a concrete heap. -/
def c1State : EvalState :=
  { cells := fun j =>
      if j = 0 then some ⟨some (.addR (.num 3) (.num 4)), none⟩ else none,
    next := 1, counter := 0, env := .root [] }

/-- The state `c1State` reaches after its thunk is forced once. -/
def c1StateAfter : EvalState :=
  writeCell 0 ⟨none, some (.num 7)⟩ (bumpCounter c1State)

/-- C1.  Forcing is memoized and idempotent: forcing a pristine thunk node
(recipe present, no cache) to a value leaves the node holding that cache and
no recipe, and every later force of the same node — from any graph parent —
returns the identical value as a pure lookup, with the whole state
(including the evaluation counter) unchanged, so the recipe runs at most
once and the counter is bumped exactly once for that node. -/
theorem force_memoized_idempotent (n id : Nat) (σ σ' : EvalState) (r : Recipe)
    (v : Value) (hcell : σ.cells id = some ⟨some r, none⟩)
    (hrun : evaluate n (.thunk id) σ = some (.ok v, σ')) :
    σ'.cells id = some ⟨none, some v⟩ ∧
    ∀ m, evaluate (m + 1) (.thunk id) σ' = some (.ok v, σ') := by
  cases n with
  | zero => exact absurd hrun (by simp [evaluate])
  | succ n₁ =>
    simp only [evaluate, hcell] at hrun
    revert hrun
    cases hres : runRecipeB (evaluate n₁) (applyStepN n₁) r (bumpCounter σ) with
    | none => intro hrun; cases hrun
    | some p =>
      obtain ⟨res, σ₂⟩ := p
      cases res with
      | error e => intro hrun; cases hrun
      | ok w =>
        intro hrun
        rw [Option.some.injEq, Prod.mk.injEq, Except.ok.injEq] at hrun
        obtain ⟨rfl, rfl⟩ := hrun
        refine ⟨by simp [writeCell], fun m => ?_⟩
        simp [evaluate, writeCell, retE]

/-- Witness for C1: the concrete thunk forces to `Number 7` once, and
re-forcing the forced node is a pure cache hit. -/
theorem force_memoized_idempotent_witness :
    evaluate 1 (Expr.thunk 0) c1StateAfter = some (.ok (.num 7), c1StateAfter) :=
  (force_memoized_idempotent 2 0 c1State c1StateAfter
    (.addR (.num 3) (.num 4)) (.num 7) rfl rfl).2 0

/-- C2.  Pair destructuring: `makeApply(Pair(a,b), f)` builds exactly the
computation `makeApply(makeApply(f, a), b)` — the argument is handed the
pair's two components in order — so forcing the two yields the same value in
the same state. -/
theorem pair_destructuring (n m : Nat) (a b f : Expr) (σ : EvalState) :
    applyStepN (n + 1) (.cons a b) f
      = bindE (applyStepN n f a) (fun e => applyStepN n e b) ∧
    bindE (applyStepN (n + 1) (.cons a b) f) (evaluate m) σ
      = bindE (bindE (applyStepN n f a) (fun e => applyStepN n e b))
          (evaluate m) σ :=
  ⟨rfl, rfl⟩

/-- C5.  Nil is the constant-true selector: applying anything to `Nil`
returns the two-argument selector `true0` that returns its first argument,
so forcing `apply(apply(apply(Nil, f), x), y)` is exactly forcing `x`. -/
theorem nil_constant_true (n₁ n₂ n₃ m : Nat) (f x y : Expr) (σ : EvalState) :
    applyStepN (n₁ + 1) Expr.nil f σ = some (.ok (.func .true0), σ) ∧
    bindE (applyStepN (n₁ + 1) Expr.nil f) (fun e1 =>
      bindE (applyStepN (n₂ + 1) e1 x) (fun e2 =>
        bindE (applyStepN (n₃ + 1) e2 y) (evaluate m))) σ
      = evaluate m x σ :=
  ⟨rfl, rfl⟩

/-- C6.  Tag fast path of nil/pair discrimination: when the forced value is
tagged `Nil`, `isNil` returns true; when it is a tagged `Pair` or a
`Number`, it returns false — the behavioral probe is reached only for
opaque functions, which are excluded here. -/
theorem isNil_tag_fastpath (n : Nat) (e : Expr) (v : Value) (σ σ' : EvalState)
    (h : evaluate n e σ = some (.ok v, σ'))
    (hv : ∀ c, v ≠ .func c) :
    isNilN (n + 1) e σ
      = some (.ok (match v with | .nil => true | _ => false), σ') := by
  simp only [isNilN, isNilB]
  rw [bindE_ok _ h]
  cases v with
  | nil => rfl
  | num i => rfl
  | cons a b => rfl
  | func c => exact absurd rfl (hv c)

/-- Witness for C6 on the tagged `Nil` value. -/
theorem isNil_tag_fastpath_witness :
    isNilN 2 Expr.nil initState = some (.ok true, initState) :=
  isNil_tag_fastpath 1 Expr.nil .nil initState initState rfl
    (fun _ h => by cases h)

/-- Counterexample to C8 as stated: a `Function` lhs whose application
itself fails.  The `car` builtin closure (`makeFunc(makeCar)`) applied to
`Number 1` runs `makeCar(Number 1) = makeApply(Number 1, theTrue)` and
throws `NotApplicable` synchronously during the application call — so
`Number` is not the only lhs shape for which application itself fails. -/
theorem numbers_not_callable_counterexample :
    applyStepN 2 (Expr.func .carB) (Expr.num 1) initState
      = some (.error .notApplicable, initState) := rfl

/-- C8 (amended).  Numbers are not callable: the `makeApply` step on a
`Number` lhs fails with `NotApplicable`, and `Number` is the only lhs shape
whose dispatch unconditionally fails — a `Nil` lhs returns the true
selector and an unforced `Thunk` lhs just allocates the deferred
application, never failing, while `Pair` and `Function` lhs delegate (to
two nested applications, resp. to the closure body), which may themselves
fail; the forced-lhs dispatch of `apply` likewise fails with
`NotApplicable` on a `Number`. -/
theorem numbers_not_callable (n : Nat) (i : Int) (rhs : Expr) (σ : EvalState) :
    applyStepN (n + 1) (.num i) rhs σ = some (.error .notApplicable, σ) ∧
    applyStepN (n + 1) Expr.nil rhs σ = some (.ok (.func .true0), σ) ∧
    (∀ id, applyStepN (n + 1) (.thunk id) rhs σ
      = some (.ok (.thunk σ.next), allocState (.appR (.thunk id) rhs) σ)) ∧
    (∀ lhs σ₁, evaluate n lhs σ = some (.ok (.num i), σ₁) →
      applyB (evaluate n) (applyStepN n) lhs rhs σ
        = some (.error .notApplicable, σ₁)) := by
  refine ⟨rfl, rfl, fun id => rfl, ?_⟩
  intro lhs σ₁ h
  unfold applyB
  rw [bindE_ok _ h]
  rfl

/-- Witness for C8: applying an argument to the number 3. -/
theorem numbers_not_callable_witness :
    applyB (evaluate 1) (applyStepN 1) (Expr.num 3) Expr.nil initState
      = some (.error .notApplicable, initState) :=
  (numbers_not_callable 1 3 Expr.nil initState).2.2.2 (Expr.num 3)
    initState rfl

/-- Witness for C4 at the spec's example: the nil-terminated chain of
`[1, -1, 0]` canonicalizes to `List [Number 1, Number (-1), Number 0]`. -/
theorem canonicalization_roundTrip_witness :
    staticDataN 6 (fromChain [1, -1, 0] Expr.nil) initState
      = some (.ok (.list [.number 1, .number (-1), .number 0]), initState) :=
  (canonicalization_roundTrip [1, -1, 0] 0 6 initState (by decide)).1

/-- Decode the probe outcome by the reserved sentinels, written out
independently of `isNilSlowB`: 123 is nil-like, 456 is pair-like, any other
number and any non-number outcome is ambiguous, and a thrown error
propagates. -/
def sentinelInterp (res : Except Err Value) : Except Err Bool :=
  match res with
  | .ok (.num k) =>
    if k = 123 then .ok true
    else if k = 456 then .ok false
    else .error .ambiguousValue
  | .ok _ => .error .ambiguousValue
  | .error err => .error err

/-- C3.  Behavioral nil/pair discrimination on an opaque function: `isNil`
on an expression that forces to a `Function` runs the application probe
(`makeApply(value, bool, 123, 456)` forced); sentinel 123 means nil-like
(true), sentinel 456 means pair-like (false), any other number — or a
non-number result — fails with `AmbiguousValue` (an error thrown by the
probe itself propagates). -/
theorem isNil_behavioral_probe (n : Nat) (e : Expr) (c : Closure)
    (σ σ₁ σ₂ : EvalState) (res : Except Err Value)
    (h1 : evaluate n e σ = some (.ok (.func c), σ₁))
    (h2 : probeN (evaluate n) (applyStepN n) c σ₁ = some (res, σ₂)) :
    isNilN (n + 1) e σ = some (sentinelInterp res, σ₂) := by
  simp only [isNilN, isNilB]
  rw [bindE_ok _ h1]
  show isNilSlowB (evaluate n) (applyStepN n) c σ₁ = _
  simp only [isNilSlowB]
  cases res with
  | error err =>
    rw [bindE_err _ h2]
    rfl
  | ok v =>
    rw [bindE_ok _ h2]
    clear h2
    cases v with
    | num k =>
      show (if k = 123 then retE true
        else if k = 456 then retE false
        else throwE Err.ambiguousValue) σ₂ = some (sentinelInterp (.ok (.num k)), σ₂)
      simp only [sentinelInterp]
      split_ifs <;> rfl
    | func c' => rfl
    | nil => rfl
    | cons a b => rfl

/-- A nil-like opaque function: applied to anything it returns the true
selector, exactly as tagged `Nil` does. -/
def c3Fun : Closure := .true1 (Expr.func .true0)

/-- Witness for C3: probing the nil-like function lands on sentinel 123 and
`isNil` reports true. -/
theorem isNil_behavioral_probe_witness :
    isNilN 2 (Expr.func c3Fun) initState = some (.ok true, initState) :=
  isNil_behavioral_probe 1 (Expr.func c3Fun) c3Fun initState initState
    initState (.ok (.num 123)) rfl rfl

/-- C7.  Lazy reference resolution: `makeReference` returns the bound
expression itself when the name resolves at call time and otherwise
allocates a thunk carrying the deferred lookup; forcing such a thunk
re-resolves the name against the force-time environment, failing with
`UndefinedReference` exactly when the name is still unbound then, and
otherwise forcing the resolved expression and caching its value — so a
forward reference works once the definition exists. -/
theorem makeReference_lazy (env : Env) (name : String) (σ : EvalState) :
    makeReferenceN env name σ
      = (match lookupEnv env name with
        | some e => some (.ok e, σ)
        | none => some (.ok (.thunk σ.next), allocState (.refR name) σ)) ∧
    ∀ (id : Nat) (σf : EvalState) (n : Nat),
      σf.cells id = some ⟨some (.refR name), none⟩ →
      evaluate (n + 1) (.thunk id) σf
        = (match lookupEnv σf.env name with
          | none => some (.error (.undefinedReference name), bumpCounter σf)
          | some e' =>
            match evaluate n e' (bumpCounter σf) with
            | none => none
            | some (.error err, σ₂) => some (.error err, σ₂)
            | some (.ok v, σ₂) => some (.ok v, writeCell id ⟨none, some v⟩ σ₂)) := by
  constructor
  · unfold makeReferenceN
    cases hl : lookupEnv env name <;> rfl
  · intro id σf n hcell
    simp only [evaluate, hcell]
    simp only [runRecipeB]
    rw [show (bumpCounter σf).env = σf.env from rfl]
    cases hl : lookupEnv σf.env name with
    | none => rfl
    | some e' => rfl

/-- The force-time state for the C7 witness: the reference thunk for `g` is
in the heap, and `g` has by now been defined as `Number 5`. -/
def c7State : EvalState :=
  { cells := fun j => if j = 0 then some ⟨some (.refR ("g")), none⟩ else none,
    next := 1, counter := 0, env := .root [("g", Expr.num 5)] }

/-- Witness for C7: forcing the reference thunk after `g` was defined
resolves and caches `Number 5`. -/
theorem makeReference_lazy_witness :
    evaluate 2 (Expr.thunk 0) c7State
      = some (.ok (.num 5), writeCell 0 ⟨none, some (.num 5)⟩
          (bumpCounter c7State)) :=
  ((makeReference_lazy (Env.root []) "g" initState).2 0 c7State 1 rfl).trans
    (by rfl)

/-- C9.  Arithmetic builtins on exact integers: `apply(apply(add, 3), 4)`
forces to `Number 7`, and `apply(apply(div, x), y)` for numbers with `y ≠ 0`
forces to the quotient truncated toward zero (`Int.tdiv`, matching JS
`bigint` division); each run allocates the builtin's thunk, bumps the
counter once and caches the result. -/
theorem arithmetic_builtins (x y : Int) (hy : y ≠ 0) (n m : Nat)
    (σ : EvalState) :
    bindE (bindE (applyStepN (n + 1) (.func .add0) (.num 3))
        (fun e => applyStepN (n + 1) e (.num 4))) (evaluate (m + 1 + 1)) σ
      = some (.ok (.num 7),
          writeCell σ.next ⟨none, some (.num 7)⟩
            (bumpCounter (allocState (.addR (.num 3) (.num 4)) σ))) ∧
    bindE (bindE (applyStepN (n + 1) (.func .div0) (.num x))
        (fun e => applyStepN (n + 1) e (.num y))) (evaluate (m + 1 + 1)) σ
      = some (.ok (.num (Int.tdiv x y)),
          writeCell σ.next ⟨none, some (.num (Int.tdiv x y))⟩
            (bumpCounter (allocState (.divR (.num x) (.num y)) σ))) := by
  constructor
  · have h1 : bindE (applyStepN (n + 1) (.func .add0) (.num 3))
        (fun e => applyStepN (n + 1) e (.num 4)) σ
        = some (.ok (.thunk σ.next),
            allocState (.addR (.num 3) (.num 4)) σ) := by
      rw [bindE_ok _ (show applyStepN (n + 1) (.func .add0) (.num 3) σ
        = some (.ok (.func (.add1 (.num 3))), σ) from rfl)]
      rfl
    rw [bindE_ok _ h1]
    have h2 : runRecipeB (evaluate (m + 1)) (applyStepN (m + 1))
        (.addR (.num 3) (.num 4))
        (bumpCounter (allocState (.addR (.num 3) (.num 4)) σ))
        = some (.ok (.num 7),
            bumpCounter (allocState (.addR (.num 3) (.num 4)) σ)) := by
      simp only [runRecipeB]
      rw [bindE_ok _ (evaluate_num (by omega) 3 _),
        bindE_ok _ (evaluate_num (by omega) 4 _)]
      rfl
    exact evaluate_fresh σ.next _ _ (allocState_cells_self _ σ) h2
  · have h1 : bindE (applyStepN (n + 1) (.func .div0) (.num x))
        (fun e => applyStepN (n + 1) e (.num y)) σ
        = some (.ok (.thunk σ.next),
            allocState (.divR (.num x) (.num y)) σ) := by
      rw [bindE_ok _ (show applyStepN (n + 1) (.func .div0) (.num x) σ
        = some (.ok (.func (.div1 (.num x))), σ) from rfl)]
      rfl
    rw [bindE_ok _ h1]
    have h2 : runRecipeB (evaluate (m + 1)) (applyStepN (m + 1))
        (.divR (.num x) (.num y))
        (bumpCounter (allocState (.divR (.num x) (.num y)) σ))
        = some (.ok (.num (Int.tdiv x y)),
            bumpCounter (allocState (.divR (.num x) (.num y)) σ)) := by
      simp only [runRecipeB]
      rw [bindE_ok _ (evaluate_num (by omega) x _),
        bindE_ok _ (evaluate_num (by omega) y _)]
      show (if y = 0 then throwE Err.divisionByZero
        else retE (Value.num (Int.tdiv x y))) _ = _
      rw [if_neg hy]
      rfl
    exact evaluate_fresh σ.next _ _ (allocState_cells_self _ σ) h2

/-- Witness for C9: `apply(apply(div, 7), 2)` forces to `Number 3`. -/
theorem arithmetic_builtins_witness :
    bindE (bindE (applyStepN 1 (.func .div0) (.num 7))
        (fun e => applyStepN 1 e (.num 2))) (evaluate 2) initState
      = some (.ok (.num 3),
          writeCell 0 ⟨none, some (.num 3)⟩
            (bumpCounter (allocState (.divR (.num 7) (.num 2)) initState))) :=
  (arithmetic_builtins 7 2 (by decide) 0 0 initState).2

lemma msize_pos (d : DataT) : 1 ≤ d.msize := by
  cases d <;> simp [DataT.msize]

lemma staticData_canon (d : DataT) :
    (∀ (n : Nat) (σ : EvalState), d.msize + 3 ≤ n →
      staticDataN n d.toExpr σ = some (.ok (canon d), σ)) ∧
    (∀ (k m : Nat) (elems : List StaticData) (σ : EvalState),
      d.msize + 1 ≤ k → d.msize + 2 ≤ m →
      staticLoopB (staticDataN m) (evaluate m) (applyStepN m) k elems
          d.valueOf σ
        = some (.ok (canonSpine d elems), σ)) := by
  induction d with
  | num i =>
    refine ⟨fun n σ hn => (staticDataN_num (by omega) i σ).trans
      (by simp [canon]), fun k m elems σ hk hm => ?_⟩
    obtain ⟨k', rfl⟩ : ∃ k', k = k' + 1 := ⟨k - 1, by omega⟩
    simp only [DataT.valueOf, staticLoopB]
    rw [bindE_ok _ (staticDataN_num (by omega) i σ)]
    simp [retE, canonSpine]
  | nil =>
    have hspine : ∀ (k m : Nat) (elems : List StaticData) (σ : EvalState),
        1 ≤ k → 1 ≤ m →
        staticLoopB (staticDataN m) (evaluate m) (applyStepN m) k elems
            Value.nil σ = some (.ok (.list elems), σ) := by
      intro k m elems σ hk hm
      obtain ⟨k', rfl⟩ : ∃ k', k = k' + 1 := ⟨k - 1, by omega⟩
      simp only [staticLoopB]
      rw [show Value.toExpr Value.nil = Expr.nil from rfl,
        bindE_ok _ (isNilB_nil hm _ σ)]
      simp [retE]
    constructor
    · intro n σ hn
      obtain ⟨n₁, rfl⟩ : ∃ n₁, n = n₁ + 1 := ⟨n - 1, by omega⟩
      simp only [DataT.toExpr, staticDataN]
      rw [bindE_ok _ (evaluate_nil (by omega) σ)]
      exact (hspine n₁ n₁ [] σ (by omega) (by omega)).trans (by simp [canon])
    · intro k m elems σ hk hm
      exact (hspine k m elems σ (by omega) (by omega)).trans
        (by simp [canonSpine])
  | cons a b iha ihb =>
    have hspine : ∀ (k m : Nat) (elems : List StaticData) (σ : EvalState),
        (DataT.cons a b).msize + 1 ≤ k → (DataT.cons a b).msize + 2 ≤ m →
        staticLoopB (staticDataN m) (evaluate m) (applyStepN m) k elems
            (DataT.cons a b).valueOf σ
          = some (.ok (canonSpine (.cons a b) elems), σ) := by
      intro k m elems σ hk hm
      have hb := msize_pos b
      have ha := msize_pos a
      simp only [DataT.msize] at hk hm
      obtain ⟨k', rfl⟩ : ∃ k', k = k' + 1 := ⟨k - 1, by omega⟩
      have hce : ∀ x y, Value.toExpr (Value.cons x y) = Expr.cons x y :=
        fun _ _ => rfl
      simp only [DataT.valueOf, staticLoopB, hce]
      rw [bindE_ok _ (isNilB_cons (by omega) _ _ _ σ)]
      simp only [Bool.false_eq_true, if_false]
      rw [bindE_ok _ (applyStep_car (by omega) _ _ σ),
        bindE_ok _ (iha.1 m σ (by omega)),
        bindE_ok _ (applyStep_cdr (by omega) _ _ σ),
        bindE_ok _ (evaluate_dataToExpr (by omega) b σ)]
      refine (ihb.2 k' m (elems ++ [canon a]) σ (by omega) (by omega)).trans ?_
      simp [canonSpine]
    refine ⟨fun n σ hn => ?_, hspine⟩
    have hb := msize_pos b
    have ha := msize_pos a
    simp only [DataT.msize] at hn
    obtain ⟨n₁, rfl⟩ : ∃ n₁, n = n₁ + 1 := ⟨n - 1, by omega⟩
    simp only [DataT.toExpr, staticDataN]
    rw [bindE_ok _ (evaluate_cons (by omega) _ _ σ)]
    refine (hspine n₁ n₁ [] σ (by simp [DataT.msize]; omega)
      (by simp [DataT.msize]; omega)).trans ?_
    simp [canon, canonSpine]

lemma forceMod_canon (d : DataT) :
    (∀ (n : Nat) (σ : EvalState), d.msize + 3 ≤ n →
      forceModN n d.toExpr σ = some (.ok (canon d), σ)) ∧
    (∀ (k m : Nat) (elems : List StaticData) (σ : EvalState),
      d.msize + 1 ≤ k → d.msize + 2 ≤ m →
      forceModLoopB (forceModN m) (evaluate m) k elems d.valueOf σ
        = some (.ok (canonSpine d elems), σ)) := by
  induction d with
  | num i =>
    have hspine : ∀ (k m : Nat) (elems : List StaticData) (σ : EvalState),
        1 ≤ k →
        forceModLoopB (forceModN m) (evaluate m) k elems (Value.num i) σ
          = some (.ok (consChainR (elems ++ [.number i])), σ) := by
      intro k m elems σ hk
      obtain ⟨k', rfl⟩ : ∃ k', k = k' + 1 := ⟨k - 1, by omega⟩
      rfl
    constructor
    · intro n σ hn
      obtain ⟨n₁, rfl⟩ : ∃ n₁, n = n₁ + 1 := ⟨n - 1, by omega⟩
      simp only [DataT.toExpr, forceModN]
      rw [bindE_ok _ (evaluate_num (by omega) i σ)]
      exact (hspine n₁ n₁ [] σ (by omega)).trans (by simp [canon, consChainR])
    · intro k m elems σ hk hm
      exact (hspine k m elems σ (by omega)).trans (by simp [canonSpine])
  | nil =>
    have hspine : ∀ (k m : Nat) (elems : List StaticData) (σ : EvalState),
        1 ≤ k →
        forceModLoopB (forceModN m) (evaluate m) k elems Value.nil σ
          = some (.ok (.list elems), σ) := by
      intro k m elems σ hk
      obtain ⟨k', rfl⟩ : ∃ k', k = k' + 1 := ⟨k - 1, by omega⟩
      rfl
    constructor
    · intro n σ hn
      obtain ⟨n₁, rfl⟩ : ∃ n₁, n = n₁ + 1 := ⟨n - 1, by omega⟩
      simp only [DataT.toExpr, forceModN]
      rw [bindE_ok _ (evaluate_nil (by omega) σ)]
      exact (hspine n₁ n₁ [] σ (by omega)).trans (by simp [canon])
    · intro k m elems σ hk hm
      exact (hspine k m elems σ (by omega)).trans (by simp [canonSpine])
  | cons a b iha ihb =>
    have hspine : ∀ (k m : Nat) (elems : List StaticData) (σ : EvalState),
        (DataT.cons a b).msize + 1 ≤ k → (DataT.cons a b).msize + 2 ≤ m →
        forceModLoopB (forceModN m) (evaluate m) k elems
            (DataT.cons a b).valueOf σ
          = some (.ok (canonSpine (.cons a b) elems), σ) := by
      intro k m elems σ hk hm
      have hb := msize_pos b
      have ha := msize_pos a
      simp only [DataT.msize] at hk hm
      obtain ⟨k', rfl⟩ : ∃ k', k = k' + 1 := ⟨k - 1, by omega⟩
      simp only [DataT.valueOf, forceModLoopB]
      rw [bindE_ok _ (iha.1 m σ (by omega)),
        bindE_ok _ (evaluate_dataToExpr (by omega) b σ)]
      refine (ihb.2 k' m (elems ++ [canon a]) σ (by omega) (by omega)).trans ?_
      simp [canonSpine]
    refine ⟨fun n σ hn => ?_, hspine⟩
    have hb := msize_pos b
    have ha := msize_pos a
    simp only [DataT.msize] at hn
    obtain ⟨n₁, rfl⟩ : ∃ n₁, n = n₁ + 1 := ⟨n - 1, by omega⟩
    simp only [DataT.toExpr, forceModN]
    rw [bindE_ok _ (evaluate_cons (by omega) _ _ σ)]
    refine (hspine n₁ n₁ [] σ (by simp [DataT.msize]; omega)
      (by simp [DataT.msize]; omega)).trans ?_
    simp [canon, canonSpine]

lemma evaluate_fuel_pos {m : Nat} {e : Expr} {σ : EvalState}
    {p : Except Err Value × EvalState} (h : evaluate m e σ = some p) :
    1 ≤ m := by
  cases m with
  | zero => simp [evaluate] at h
  | succ m' => omega

lemma forceModN_fuel {m : Nat} {e : Expr} {σ : EvalState}
    {p : Except Err StaticData × EvalState} (h : forceModN m e σ = some p) :
    2 ≤ m := by
  cases m with
  | zero => simp [forceModN] at h
  | succ m' =>
    cases m' with
    | zero => simp [forceModN, evaluate, bindE] at h
    | succ m'' => omega

lemma bindE_ok_elim {α β : Type} {x : EvalM α} {f : α → EvalM β}
    {σ σ' : EvalState} {b : β}
    (h : bindE x f σ = some (.ok b, σ')) :
    ∃ a σ₁, x σ = some (.ok a, σ₁) ∧ f a σ₁ = some (.ok b, σ') := by
  unfold bindE at h
  rcases hx : x σ with _ | ⟨res, σ₁⟩ <;> rw [hx] at h
  · simp at h
  · cases res with
    | error e => simp at h
    | ok a => exact ⟨a, σ₁, rfl, h⟩

lemma forceModLoop_staticLoop (m : Nat)
    (IHe : ∀ (e : Expr) (σ : EvalState) (r : StaticData) (σ' : EvalState),
      forceModN m e σ = some (.ok r, σ') →
      staticDataN m e σ = some (.ok r, σ'))
    (hm : 1 ≤ m) :
    ∀ (k : Nat) (elems : List StaticData) (v : Value) (σ : EvalState)
      (r : StaticData) (σ' : EvalState),
      (2 ≤ m ∨ ∀ i, v ≠ Value.num i) →
      forceModLoopB (forceModN m) (evaluate m) k elems v σ
        = some (.ok r, σ') →
      staticLoopB (staticDataN m) (evaluate m) (applyStepN m) k elems v σ
        = some (.ok r, σ') := by
  intro k
  induction k with
  | zero =>
    intro elems v σ r σ' _ h
    simp [forceModLoopB] at h
  | succ k' ih =>
    intro elems v σ r σ' hok h
    cases v with
    | num i =>
      have hm2 : 2 ≤ m := by
        rcases hok with hm2 | hne
        · exact hm2
        · exact absurd rfl (hne i)
      simp only [forceModLoopB, retE] at h
      rw [Option.some.injEq, Prod.mk.injEq, Except.ok.injEq] at h
      obtain ⟨rfl, rfl⟩ := h
      simp only [staticLoopB]
      rw [bindE_ok _ (staticDataN_num hm2 i σ)]
      rfl
    | nil =>
      simp only [forceModLoopB, retE] at h
      rw [Option.some.injEq, Prod.mk.injEq, Except.ok.injEq] at h
      obtain ⟨rfl, rfl⟩ := h
      simp only [staticLoopB]
      rw [show Value.toExpr Value.nil = Expr.nil from rfl,
        bindE_ok _ (isNilB_nil hm _ σ)]
      rfl
    | func c =>
      simp [forceModLoopB, throwE] at h
    | cons a b =>
      simp only [forceModLoopB] at h
      obtain ⟨d, σ₁, hcar, h⟩ := bindE_ok_elim h
      obtain ⟨v₂, σ₂, hcdr, h⟩ := bindE_ok_elim h
      have hm2 : 2 ≤ m := forceModN_fuel hcar
      have hce : Value.toExpr (Value.cons a b) = Expr.cons a b := rfl
      simp only [staticLoopB]
      rw [hce, bindE_ok _ (isNilB_cons hm _ _ _ σ)]
      simp only [Bool.false_eq_true, if_false]
      rw [bindE_ok _ (applyStep_car hm2 _ _ σ),
        bindE_ok _ (IHe a σ d σ₁ hcar),
        bindE_ok _ (applyStep_cdr hm2 _ _ σ₁),
        bindE_ok _ hcdr]
      exact ih (elems ++ [d]) v₂ σ₂ r σ' (Or.inl hm2) h

/-- Lockstep of the two canonicalization passes over arbitrary expressions
and heaps: whenever the OO `forceModulatable` succeeds — which happens
exactly when every value met along the walk (the spine and, recursively,
every element, through any thunks forced on the way) is a tagged `Number`,
`Nil` or `Cons`, since it throws on any opaque function — the functional
`exprToStaticData` performs the same forcing steps and returns the same
canonical tree in the same final state. -/
lemma staticData_of_forceMod (n : Nat) :
    ∀ (e : Expr) (σ : EvalState) (r : StaticData) (σ' : EvalState),
    forceModN n e σ = some (.ok r, σ') →
    staticDataN n e σ = some (.ok r, σ') := by
  induction n with
  | zero =>
    intro e σ r σ' h
    simp [forceModN] at h
  | succ n₁ ih =>
    intro e σ r σ' h
    simp only [forceModN] at h
    obtain ⟨v, σ₁, hev, hloop⟩ := bindE_ok_elim h
    have hm : 1 ≤ n₁ := evaluate_fuel_pos hev
    simp only [staticDataN]
    rw [bindE_ok _ hev]
    cases v with
    | num i =>
      obtain ⟨k, rfl⟩ : ∃ k, n₁ = k + 1 := ⟨n₁ - 1, by omega⟩
      simp only [forceModLoopB, retE] at hloop
      rw [Option.some.injEq, Prod.mk.injEq, Except.ok.injEq] at hloop
      obtain ⟨rfl, rfl⟩ := hloop
      rfl
    | nil =>
      exact forceModLoop_staticLoop n₁ (fun a σa ra σa' ha => ih a σa ra σa' ha)
        hm n₁ [] Value.nil σ₁ r σ' (Or.inr (fun i hh => by cases hh)) hloop
    | cons a b =>
      exact forceModLoop_staticLoop n₁ (fun x σa ra σa' ha => ih x σa ra σa' ha)
        hm n₁ [] (Value.cons a b) σ₁ r σ' (Or.inr (fun i hh => by cases hh))
        hloop
    | func c =>
      obtain ⟨k, rfl⟩ : ∃ k, n₁ = k + 1 := ⟨n₁ - 1, by omega⟩
      simp [forceModLoopB, throwE] at hloop

/-- C10.  The functional canonicalization pass (`exprToStaticData`) and the
OO pass (`Evaluator.forceModulatable`) agree on every expression whose
forced value graph, along the walked structure, consists only of tagged
`Number`, `Nil` and `Cons` values — thunks forcing to tagged values
included.  That domain is exactly where `forceModulatable` succeeds (it
throws on any opaque function it meets), and there the functional pass
produces the identical canonical tree in the identical final state. -/
theorem canonicalization_passes_agree (n : Nat) (e : Expr) (σ : EvalState)
    (r : StaticData) (σ' : EvalState)
    (h : forceModN n e σ = some (.ok r, σ')) :
    staticDataN n e σ = forceModN n e σ ∧
    staticDataN n e σ = some (.ok r, σ') := by
  have h1 := staticData_of_forceMod n e σ r σ' h
  exact ⟨h1.trans h.symm, h1⟩

/-- The heap for the C10 witness: cell 0 is a thunk already forced to (and
caching) tagged `Nil`. -/
def c10State : EvalState :=
  { cells := fun j => if j = 0 then some ⟨none, some Value.nil⟩ else none,
    next := 1, counter := 0, env := .root [] }

/-- Witness for C10 on a spine that contains a thunk: the pair
`Pair(Number 1, thunk-caching-Nil)` canonicalizes to `List [Number 1]` by
both passes. -/
theorem canonicalization_passes_agree_witness :
    staticDataN 3 (Expr.cons (.num 1) (.thunk 0)) c10State
      = some (.ok (.list [.number 1]), c10State) :=
  (canonicalization_passes_agree 3 (Expr.cons (.num 1) (.thunk 0)) c10State
    (.list [.number 1]) c10State rfl).2

end Galaxy
